import Mathlib

/-!
Verification of the InferMate Retrieval Engine + Provider Routing Core.

The development shallowly embeds the code of the in-memory vector store
(chunking, embedding-driven indexing, cosine-similarity ranking, observer
notification) and of the provider-routing / retry logic of the chat service.
Strings are modelled as lists of characters, JavaScript numbers as rationals,
and the external embedding / generative calls as explicit oracles passed in
as function arguments.
-/

namespace InferMate

/-! ### Chunker

Source (vectorStore, chunkText):
for (let i = 0; i < text.length; i += chunkSize) chunks.push(text.slice(i, i + chunkSize))

For chunkSize = 0 the JavaScript loop would not terminate on non-empty text;
the model is therefore only meaningful for a positive chunk size (the code
always calls it with 500) and returns the empty list otherwise.  The
recursion is bounded by the structural fuel text.length, which the loop
never exhausts: each iteration with a positive chunkSize consumes at least
one character. -/
def chunkTextFuel (chunkSize : Nat) : Nat → List Char → List (List Char)
  | 0, _ => []
  | fuel + 1, text =>
    if 0 < chunkSize ∧ 0 < text.length then
      text.take chunkSize :: chunkTextFuel chunkSize fuel (text.drop chunkSize)
    else
      []

def chunkText (text : List Char) (chunkSize : Nat) : List (List Char) :=
  chunkTextFuel chunkSize text.length text

/-! ### Cosine similarity

Source (vectorStore, cosineSimilarity):
    let dotProduct = 0; let magA = 0; let magB = 0;
    for (let i = 0; i < vecA.length; i++) \x7b
        dotProduct += vecA[i] * vecB[i];
        magA += vecA[i] * vecA[i];
        magB += vecB[i] * vecB[i];
    \x7d
    return dotProduct / (Math.sqrt(magA) * Math.sqrt(magB));

The loop runs over the indices of vecA, so only the length-of-vecA prefix of
vecB is read.  The result is an IEEE double; we model it as follows.

* If vecA is longer than vecB, the loop reads vecB out of bounds: the
  JavaScript value is undefined, every product with it is NaN, and the final
  quotient is NaN.  We model NaN as none.
* Otherwise let d = dot product, a = sum of squares of vecA and
  b = sum of squares of the read prefix of vecB (all rationals).  The code
  returns d / (sqrt a * sqrt b) = d / sqrt (a * b).
  - If a * b = 0 then d = 0 as well (a sum of squares vanishes only when every
    factor of every product vanishes; lemma dotPrefix_eq_zero_of_mul_eq_zero
    below), so the code computes 0 / 0 = NaN: modelled as none.
  - If a * b > 0 the real value d / sqrt (a * b) is generally irrational.
    The score is never returned to a caller (similaritySearch drops it after
    sorting), only compared, so we represent it through the strictly
    increasing map s ↦ s * abs s, under which it becomes the rational
    (d * ratAbs d) / (a * b); comparisons of two scores are exactly comparisons
    of their representatives, so the ranking is preserved exactly. -/

def dotPrefix (vecA vecB : List ℚ) : ℚ :=
  ((vecA.zip vecB).map (fun p => p.1 * p.2)).sum

def sumSq (v : List ℚ) : ℚ :=
  (v.map (fun x => x * x)).sum

def ratAbs (q : ℚ) : ℚ :=
  if q < 0 then -q else q

def cosineSimilarity (vecA vecB : List ℚ) : Option ℚ :=
  if vecB.length < vecA.length then none
  else
    let d := dotPrefix vecA vecB
    let a := sumSq vecA
    let b := sumSq (vecB.take vecA.length)
    if a * b = 0 then none
    else some (d * ratAbs d / (a * b))

/-! ### Vector store state

Source (vectorStore): class VectorStore with private fields
documents: VectorDocument[] and listeners: Listener[].  A VectorDocument is
the record pushed by addDocument.  Listeners are JavaScript function values;
we model them by an arbitrary type L with decidable (reference) equality.

The external world is modelled by three oracles passed explicitly:
* embed    : the getEmbedding function.  In the source getEmbedding never
  rejects: it catches every error internally and returns an empty array, so
  it is a total function returning the empty list on failure and the
  try/catch inside addDocument around it can never fire; a failed embedding
  is exactly an empty result.
* idGen    : the stream of Math.random().toString(36).substring(7) values,
  indexed by how many ids have been drawn so far (the rng cursor below).
* clock    : the stream of Date.now() values, indexed the same way (one id
  and one timestamp are drawn per successful chunk). -/

structure VectorDocument where
  id : List Char
  text : List Char
  source : List Char
  category : List Char
  embedding : List ℚ
  timestamp : Nat
deriving DecidableEq

structure VectorStoreState (L : Type) where
  documents : List VectorDocument
  listeners : List L
  rng : Nat
deriving DecidableEq

def emptyStore (L : Type) : VectorStoreState L :=
  { documents := [], listeners := [], rng := 0 }

/-- Source: subscribe pushes the listener onto the listeners array and
returns an unsubscribe closure (modelled by the unsubscribe function below,
applied to the same listener value). -/
def subscribe {L : Type} (listener : L) (st : VectorStoreState L) : VectorStoreState L :=
  { st with listeners := st.listeners ++ [listener] }

/-- Source: the closure returned by subscribe runs
this.listeners = this.listeners.filter(l => l !== listener). -/
def unsubscribe {L : Type} [DecidableEq L] (listener : L) (st : VectorStoreState L) :
    VectorStoreState L :=
  { st with listeners := st.listeners.filter (fun l => decide (l ≠ listener)) }

/-- Source: notify runs this.listeners.forEach(l => l()); the observable
event is the sequence of listeners invoked, in registration order. -/
def notify {L : Type} (st : VectorStoreState L) : List L :=
  st.listeners

/-- One iteration of the for-loop of addDocument: embed the chunk and, when
the embedding is non-empty, push a new VectorDocument (drawing an id and a
timestamp from the oracles) and increment the success count.  A thrown
error cannot occur (getEmbedding is total), so the catch-and-continue branch
of the source coincides with the empty-embedding skip. -/
def addChunk {L : Type} (embed : List Char → List ℚ) (idGen : Nat → List Char)
    (clock : Nat → Nat) (source category : List Char)
    (acc : VectorStoreState L × Nat) (chunk : List Char) : VectorStoreState L × Nat :=
  let embedding := embed chunk
  if 0 < embedding.length then
    ({ acc.1 with
        documents := acc.1.documents ++
          [{ id := idGen acc.1.rng, text := chunk, source := source,
             category := category, embedding := embedding,
             timestamp := clock acc.1.rng }],
        rng := acc.1.rng + 1 },
      acc.2 + 1)
  else
    acc

structure AddDocumentResult (L : Type) where
  store : VectorStoreState L
  returned : Nat
  notified : List L
deriving DecidableEq

/-- Source (vectorStore, addDocument): chunk the text with chunk size 500,
loop over the chunks accumulating successes, then notify exactly when at
least one chunk was indexed, and return the success count. -/
def addDocument {L : Type} (embed : List Char → List ℚ) (idGen : Nat → List Char)
    (clock : Nat → Nat) (text source category : List Char)
    (st : VectorStoreState L) : AddDocumentResult L :=
  let chunks := chunkText text 500
  let r := chunks.foldl (addChunk embed idGen clock source category) (st, 0)
  { store := r.1, returned := r.2,
    notified := if 0 < r.2 then notify r.1 else [] }

/-- A session is a sequence of addDocument calls against the same store;
each request is a (text, source, category) triple. -/
def runSession {L : Type} (embed : List Char → List ℚ) (idGen : Nat → List Char)
    (clock : Nat → Nat) (reqs : List (List Char × List Char × List Char))
    (st : VectorStoreState L) : VectorStoreState L :=
  reqs.foldl (fun s r => (addDocument embed idGen clock r.1 r.2.1 r.2.2 s).store) st

/-! ### Similarity search

Source (vectorStore, similaritySearch): embed the query; return [] when the
embedding is empty; otherwise score every document, sort by score descending
with Array.prototype.sort((a, b) => b.score - a.score) and return the
documents of the first topK scored entries.

Array.prototype.sort is stable (ECMAScript 2019), and for a consistent
comparator the stable descending order determines the output uniquely, so
any stable sorting algorithm is a faithful model; we use a stable insertion
sort.  The comparator returns b.score - a.score; a NaN comparator value is
treated as 0 (no reorder), which scoreGT reproduces by returning false
whenever either score is the NaN marker. -/

def scoreGT : Option ℚ → Option ℚ → Bool
  | some x, some y => decide (y < x)
  | _, _ => false

def insertByScore (x : VectorDocument × Option ℚ) :
    List (VectorDocument × Option ℚ) → List (VectorDocument × Option ℚ)
  | [] => [x]
  | y :: ys => if scoreGT y.2 x.2 then y :: insertByScore x ys else x :: y :: ys

def sortByScoreDesc : List (VectorDocument × Option ℚ) → List (VectorDocument × Option ℚ)
  | [] => []
  | x :: xs => insertByScore x (sortByScoreDesc xs)

/-- The scored-documents list built by similaritySearch (documents.map with
the cosine score against the query embedding). -/
def scoredOf {L : Type} (embed : List Char → List ℚ) (query : List Char)
    (st : VectorStoreState L) : List (VectorDocument × Option ℚ) :=
  st.documents.map (fun doc => (doc, cosineSimilarity (embed query) doc.embedding))

def similaritySearch {L : Type} (embed : List Char → List ℚ) (query : List Char)
    (topK : Nat) (st : VectorStoreState L) : List VectorDocument :=
  let queryEmbedding := embed query
  if queryEmbedding.length = 0 then []
  else
    let scoredDocs := scoredOf embed query st
    let sorted := sortByScoreDesc scoredDocs
    (sorted.take topK).map Prod.fst

/-! ### Ranking specification (from the spec's words)

Modelled from the spec: sort descending by score; ties broken by insertion
order (stable sort); return at most topK entries.  The entries are decorated
with their insertion index, and sorted by the strict linear order specLt:
higher score first, equal scores ordered by smaller index first.  This is the
specification side of claim C3; the theorem relates it to the code-side
sortByScoreDesc. -/

def keyOf (s : Option ℚ) : ℚ :=
  s.getD 0

def specLt (a b : Nat × VectorDocument × Option ℚ) : Prop :=
  keyOf b.2.2 < keyOf a.2.2 ∨ (keyOf a.2.2 = keyOf b.2.2 ∧ a.1 < b.1)

instance (a b : Nat × VectorDocument × Option ℚ) : Decidable (specLt a b) := by
  unfold specLt
  infer_instance

def specInsert (z : Nat × VectorDocument × Option ℚ) :
    List (Nat × VectorDocument × Option ℚ) → List (Nat × VectorDocument × Option ℚ)
  | [] => [z]
  | y :: ys => if specLt y z then y :: specInsert z ys else z :: y :: ys

def specSort :
    List (Nat × VectorDocument × Option ℚ) → List (Nat × VectorDocument × Option ℚ)
  | [] => []
  | x :: xs => specInsert x (specSort xs)

/-- The spec-side ranking of a scored list: decorate with insertion indices
and sort by the strict linear order specLt. -/
def specRank (l : List (VectorDocument × Option ℚ)) :
    List (Nat × VectorDocument × Option ℚ) :=
  specSort l.enum

/-! ### Provider router: intent classification and tool selection

Source (geminiService, chatHybrid, model/tool selection block).  The model
identifiers and tool configurations are represented as enumerations; only
which of them is selected matters to the claims. -/

inductive ChatPersona where
  | GENERAL
  | RESEARCHER
  | CREATIVE
  | ANALYST
  | VISUAL_CREATOR
  | CUSTOM
deriving DecidableEq

inductive GenModel where
  | flashModel
  | mapsModel
  | imageModel
deriving DecidableEq

inductive ToolChoice where
  | imageGenTool
  | googleMapsTool
  | googleSearchTool
deriving DecidableEq

inductive Route where
  | videoPipeline
  | call (model : GenModel) (tools : List ToolChoice)
deriving DecidableEq

/-- ASCII lowering, modelling String.prototype.toLowerCase on the ASCII
range (every keyword the router tests for is ASCII). -/
def lowerChar (c : Char) : Char :=
  if 'A' ≤ c ∧ c ≤ 'Z' then Char.ofNat (c.toNat + 32) else c

def lowerStr (s : List Char) : List Char :=
  s.map lowerChar

/-- JavaScript word character, the w class of a non-unicode regex. -/
def isWordChar (c : Char) : Bool :=
  ('a' ≤ c && c ≤ 'z') || ('A' ≤ c && c ≤ 'Z') || ('0' ≤ c && c ≤ '9') || c = '_'

/-- JavaScript line terminators, which the dot of a regex does not match. -/
def isLineTerm (c : Char) : Bool :=
  c = Char.ofNat 10 || c = Char.ofNat 13 || c = Char.ofNat 0x2028 || c = Char.ofNat 0x2029

/-- The slice of s starting at i equals kw. -/
def sliceIs (s kw : List Char) (i : Nat) : Bool :=
  decide ((s.drop i).take kw.length = kw)

/-- kw occurs at position i of s with a regex word boundary on both sides
(every keyword consists of word characters, so the boundary condition is
that the neighbouring characters, when they exist, are not word chars). -/
def wordMatchAt (s kw : List Char) (i : Nat) : Bool :=
  sliceIs s kw i &&
  (i = 0 || !(isWordChar (s.getD (i - 1) ' '))) &&
  !(isWordChar (s.getD (i + kw.length) ' '))

/-- Some keyword of kws occurs somewhere in s with word boundaries. -/
def hasWordKw (kws : List (List Char)) (s : List Char) : Bool :=
  (List.range (s.length + 1)).any (fun i => kws.any (fun kw => wordMatchAt s kw i))

/-- Plain substring containment (String.prototype.includes). -/
def containsSub (s kw : List Char) : Bool :=
  (List.range (s.length + 1)).any (fun i => sliceIs s kw i)

/-- Source: query.toLowerCase().includes("map") || ...("location") ||
...("path") || ...("where is"). -/
def isMapIntent (query : List Char) : Bool :=
  containsSub (lowerStr query) (("map").toList) ||
  containsSub (lowerStr query) (("location").toList) ||
  containsSub (lowerStr query) (("path").toList) ||
  containsSub (lowerStr query) (("where is").toList)

/-- Source: query.toLowerCase().match of the word alternation
video | animate | movie | motion with word boundaries. -/
def isVideoRequest (query : List Char) : Bool :=
  hasWordKw [("video").toList, ("animate").toList, ("movie").toList, ("motion").toList]
    (lowerStr query)

/-- Source: query.toLowerCase().match of: a creation verb
(generate | create | draw | make) with word boundaries, then any characters
containing no line terminator, then a media noun
(image | picture | photo | art) with word boundaries. -/
def isImageRequest (query : List Char) : Bool :=
  let s := lowerStr query
  (List.range (s.length + 1)).any (fun i =>
    [("generate").toList, ("create").toList, ("draw").toList, ("make").toList].any (fun v =>
      wordMatchAt s v i &&
      (List.range (s.length + 1)).any (fun j =>
        decide (i + v.length ≤ j) &&
        [("image").toList, ("picture").toList, ("photo").toList, ("art").toList].any (fun n =>
          wordMatchAt s n j &&
          ((s.drop (i + v.length)).take (j - (i + v.length))).all (fun c => !(isLineTerm c))))))

/-- Source (chatHybrid, lines selecting selectedModel and tools):

1. selectedModel = MODEL_NAME, tools = [].
2. If persona is VISUAL_CREATOR: selectedModel = IMAGE_MODEL,
   tools = [generate_image]; if additionally the query is video-like and no
   document is attached, the visual video pipeline runs and returns early.
3. The map check is a separate if statement, not an else branch: a location
   keyword overrides whatever step 2 selected.
4. Otherwise (else-if), when no document is attached and the persona is not
   VISUAL_CREATOR: image-creation queries get the generate_image tool, all
   others the googleSearch tool (mutually exclusive by construction). -/
def routeConfig (persona : ChatPersona) (query : List Char) (hasDoc : Bool) : Route :=
  if persona = ChatPersona.VISUAL_CREATOR ∧ isVideoRequest query = true ∧ hasDoc = false then
    Route.videoPipeline
  else if isMapIntent query = true then
    Route.call GenModel.mapsModel [ToolChoice.googleMapsTool]
  else if hasDoc = false ∧ persona ≠ ChatPersona.VISUAL_CREATOR then
    if isImageRequest query then
      Route.call GenModel.flashModel [ToolChoice.imageGenTool]
    else
      Route.call GenModel.flashModel [ToolChoice.googleSearchTool]
  else if persona = ChatPersona.VISUAL_CREATOR then
    Route.call GenModel.imageModel [ToolChoice.imageGenTool]
  else
    Route.call GenModel.flashModel []

/-! ### Error handling: the chatHybrid catch block and withRetry

Source (geminiService).  A JavaScript error is modelled by its status, code
and message fields; the results of the individual backend calls are oracles
(an Except value per call). -/

structure JsError where
  status : Option Nat
  code : Option Nat
  message : List Char
deriving DecidableEq

/-- Source: error.status === 403 || error.message?.includes("PERMISSION_DENIED"). -/
def isPermissionError (e : JsError) : Bool :=
  e.status = some 403 || containsSub e.message (("PERMISSION_DENIED").toList)

/-- The distinct elevated-access condition: throw new Error("PAYMENT_REQUIRED"). -/
def paymentRequired : JsError :=
  { status := none, code := none, message := ("PAYMENT_REQUIRED").toList }

/-- Source (withRetry): error.status === 500 || error.code === 500 ||
error.message?.includes("Internal error"). -/
def isInternalError (e : JsError) : Bool :=
  e.status = some 500 || e.code = some 500 ||
  containsSub e.message (("Internal error").toList)

/-- Source (chatHybrid, catch block).  first is the outcome of the primary
chat.sendMessage call (after result parsing), retry the outcome of the
fallback call created with the same model, instruction and history but
tools: [] — the code performs that call exactly once, and only on a
permission error with tools enabled.  Outcomes are the produced text;
thrown errors are the Except.error case.

    catch (error) \x7b
      if (403 or PERMISSION_DENIED) \x7b
        if (tools non-empty) \x7b retry without tools; return its text \x7d
        throw PAYMENT_REQUIRED
      \x7d
      if (message is PAYMENT_REQUIRED or includes 404) throw PAYMENT_REQUIRED
      return neutral error text
    \x7d

Note the retry is not wrapped in its own try: an error thrown by the
tool-free retry propagates to the caller as-is. -/
def chatHybridOutcome (tools : List ToolChoice)
    (first : Except JsError (List Char)) (retry : Except JsError (List Char)) :
    Except JsError (List Char) :=
  match first with
  | Except.ok t => Except.ok t
  | Except.error e =>
      if isPermissionError e then
        if tools ≠ [] then
          match retry with
          | Except.ok t => Except.ok t
          | Except.error e2 => Except.error e2
        else
          Except.error paymentRequired
      else if e.message = ("PAYMENT_REQUIRED").toList ∨ containsSub e.message (("404").toList) then
        Except.error paymentRequired
      else
        Except.ok (("Error connecting to AI. Please try again.").toList)

/-- Source (withRetry): try fn(); on an internal error with retries left,
wait delay ms and recurse with retries - 1 and delay * 2; otherwise rethrow.
The attempts oracle gives the outcome of the i-th call of fn; the returned
list collects the delays waited before each retry, in order. -/
def withRetry {α : Type} (attempts : Nat → Except JsError α) (i : Nat) :
    Nat → Nat → Except JsError α × List Nat
  | retries, delay =>
    match attempts i with
    | Except.ok v => (Except.ok v, [])
    | Except.error e =>
        if isInternalError e then
          match retries with
          | 0 => (Except.error e, [])
          | r + 1 =>
              let p := withRetry attempts (i + 1) r (delay * 2)
              (p.1, delay :: p.2)
        else
          (Except.error e, [])

/-- The delay schedule of an exponential backoff: retries delays starting at
delay, doubling each time. -/
def backoffDelays (delay : Nat) : Nat → List Nat
  | 0 => []
  | r + 1 => delay :: backoffDelays (delay * 2) r

theorem chunkTextFuel_nil (chunkSize fuel : Nat) : chunkTextFuel chunkSize fuel [] = [] := by
  cases fuel with
  | zero => rfl
  | succ f => simp [chunkTextFuel]

theorem chunkText_nil (chunkSize : Nat) : chunkText [] chunkSize = [] := rfl

theorem chunkTextFuel_join (chunkSize : Nat) (hS : 0 < chunkSize) :
    ∀ (fuel : Nat) (t : List Char), t.length ≤ fuel →
      (chunkTextFuel chunkSize fuel t).flatten = t := by
  intro fuel
  induction fuel with
  | zero =>
      intro t ht
      rw [List.length_eq_zero.mp (Nat.le_zero.mp ht)]
      rfl
  | succ f ih =>
      intro t ht
      by_cases hc : 0 < chunkSize ∧ 0 < t.length
      · rw [chunkTextFuel, if_pos hc, List.flatten_cons,
          ih (t.drop chunkSize) (by simp only [List.length_drop]; omega)]
        exact List.take_append_drop chunkSize t
      · rw [chunkTextFuel, if_neg hc]
        have : t.length = 0 := by
          rcases Nat.eq_zero_or_pos t.length with h0 | hpos
          · exact h0
          · exact absurd ⟨hS, hpos⟩ hc
        rw [List.length_eq_zero.mp this]
        rfl

theorem chunkText_join (text : List Char) (chunkSize : Nat) :
    0 < chunkSize → (chunkText text chunkSize).flatten = text := fun hS =>
  chunkTextFuel_join chunkSize hS text.length text le_rfl

theorem sumSq_nonneg (v : List ℚ) : 0 ≤ sumSq v := by
  induction v with
  | nil => simp [sumSq]
  | cons x t ih =>
      simp only [sumSq, List.map_cons, List.sum_cons] at ih ⊢
      nlinarith [mul_self_nonneg x]

theorem sumSq_eq_zero_mem (v : List ℚ) (h : sumSq v = 0) : ∀ x ∈ v, x = 0 := by
  induction v with
  | nil => simp
  | cons y t ih =>
      simp only [sumSq, List.map_cons, List.sum_cons] at h
      have ht : 0 ≤ sumSq t := sumSq_nonneg t
      have hy : y * y = 0 := by
        simp only [sumSq] at ht
        nlinarith [mul_self_nonneg y]
      intro x hx
      rcases List.mem_cons.mp hx with hx | hx
      · rw [hx]
        exact mul_self_eq_zero.mp hy
      · refine ih ?_ x hx
        simp only [sumSq] at ht ⊢
        nlinarith [mul_self_nonneg y]

theorem sumSq_cons (x : ℚ) (t : List ℚ) : sumSq (x :: t) = x * x + sumSq t := by
  simp [sumSq]

theorem sumSq_cons_zero (x : ℚ) (t : List ℚ) (h : sumSq (x :: t) = 0) :
    x = 0 ∧ sumSq t = 0 := by
  rw [sumSq_cons] at h
  have h1 : 0 ≤ x * x := mul_self_nonneg x
  have h2 : 0 ≤ sumSq t := sumSq_nonneg t
  constructor
  · exact mul_self_eq_zero.mp (by linarith)
  · linarith

/-- A vanishing denominator forces a vanishing numerator: the modelled 0 / 0
case is the only division-by-zero the source can actually reach. -/
theorem dotPrefix_eq_zero_of_mul_eq_zero (vecA vecB : List ℚ)
    (h : sumSq vecA * sumSq (vecB.take vecA.length) = 0) :
    dotPrefix vecA vecB = 0 := by
  induction vecA generalizing vecB with
  | nil => simp [dotPrefix]
  | cons x t ih =>
      cases vecB with
      | nil => simp [dotPrefix]
      | cons y u =>
          simp only [dotPrefix, List.zip_cons_cons, List.map_cons, List.sum_cons]
          have hdot : dotPrefix t u = ((t.zip u).map (fun p => p.1 * p.2)).sum := rfl
          simp only [List.length_cons, List.take_succ_cons] at h
          rcases mul_eq_zero.mp h with hA | hB
          · obtain ⟨hx, ht⟩ := sumSq_cons_zero x t hA
            rw [hx, zero_mul, zero_add, ← hdot]
            exact ih u (by rw [ht, zero_mul])
          · obtain ⟨hy, hu⟩ := sumSq_cons_zero y (u.take t.length) hB
            rw [hy, mul_zero, zero_add, ← hdot]
            exact ih u (by rw [hu, mul_zero])

theorem chunkTextFuel_length_le (chunkSize : Nat) :
    ∀ (fuel : Nat) (t : List Char), ∀ c ∈ chunkTextFuel chunkSize fuel t,
      c.length ≤ chunkSize := by
  intro fuel
  induction fuel with
  | zero =>
      intro t c hc
      exact absurd hc (List.not_mem_nil c)
  | succ f ih =>
      intro t c hc
      by_cases hcond : 0 < chunkSize ∧ 0 < t.length
      · rw [chunkTextFuel, if_pos hcond] at hc
        rcases List.mem_cons.mp hc with hc | hc
        · simp [hc, List.length_take]
        · exact ih (t.drop chunkSize) c hc
      · rw [chunkTextFuel, if_neg hcond] at hc
        exact absurd hc (List.not_mem_nil c)

theorem chunkText_length_le (text : List Char) (chunkSize : Nat) :
    ∀ c ∈ chunkText text chunkSize, c.length ≤ chunkSize :=
  chunkTextFuel_length_le chunkSize text.length text

theorem chunkTextFuel_dropLast_length (chunkSize : Nat) :
    ∀ (fuel : Nat) (t : List Char), ∀ c ∈ (chunkTextFuel chunkSize fuel t).dropLast,
      c.length = chunkSize := by
  intro fuel
  induction fuel with
  | zero =>
      intro t c hc
      exact absurd hc (List.not_mem_nil c)
  | succ f ih =>
      intro t c hc
      by_cases hcond : 0 < chunkSize ∧ 0 < t.length
      · rw [chunkTextFuel, if_pos hcond] at hc
        by_cases hrest : chunkTextFuel chunkSize f (t.drop chunkSize) = []
        · rw [hrest] at hc
          simp at hc
        · rw [List.dropLast_cons_of_ne_nil hrest] at hc
          rcases List.mem_cons.mp hc with hc | hc
          · -- the head chunk is followed by another chunk, so the drop was non-empty
            have hlen : 0 < (t.drop chunkSize).length := by
              by_contra hz
              push_neg at hz
              have h2 : (t.drop chunkSize).length = 0 := by omega
              rw [List.length_eq_zero.mp h2, chunkTextFuel_nil] at hrest
              exact hrest rfl
            have hcs : chunkSize < t.length := by
              simp only [List.length_drop] at hlen
              omega
            simp only [hc, List.length_take]
            omega
          · exact ih (t.drop chunkSize) c hc
      · rw [chunkTextFuel, if_neg hcond] at hc
        exact absurd hc (List.not_mem_nil c)

theorem chunkText_dropLast_length (text : List Char) (chunkSize : Nat) :
    ∀ c ∈ (chunkText text chunkSize).dropLast, c.length = chunkSize :=
  chunkTextFuel_dropLast_length chunkSize text.length text

/-- Folding addChunk over any chunk list adds one success per chunk with a
non-empty embedding and never touches the listeners array. -/
theorem addChunk_foldl_spec {L : Type} (embed : List Char → List ℚ)
    (idGen : Nat → List Char) (clock : Nat → Nat) (source category : List Char)
    (chunks : List (List Char)) (st : VectorStoreState L) (cnt : Nat) :
    (chunks.foldl (addChunk embed idGen clock source category) (st, cnt)).2
        = cnt + (chunks.filter (fun c => 0 < (embed c).length)).length ∧
    (chunks.foldl (addChunk embed idGen clock source category) (st, cnt)).1.listeners
        = st.listeners := by
  induction chunks generalizing st cnt with
  | nil => simp
  | cons c rest ih =>
      simp only [List.foldl_cons, List.filter_cons]
      by_cases hc : 0 < (embed c).length
      · have step : addChunk embed idGen clock source category (st, cnt) c
            = ({ st with
                  documents := st.documents ++
                    [{ id := idGen st.rng, text := c, source := source,
                       category := category, embedding := embed c,
                       timestamp := clock st.rng }],
                  rng := st.rng + 1 }, cnt + 1) := by
          simp [addChunk, hc]
        rw [step]
        obtain ⟨h1, h2⟩ := ih _ (cnt + 1)
        refine ⟨?_, by simpa using h2⟩
        rw [h1]
        simp [hc]
        omega
      · have step : addChunk embed idGen clock source category (st, cnt) c = (st, cnt) := by
          simp [addChunk, hc]
        rw [step]
        obtain ⟨h1, h2⟩ := ih st cnt
        refine ⟨?_, h2⟩
        rw [h1]
        simp [hc]

/-- Claim C1: addDocument returns exactly the number of fragments whose
embedding succeeded (every fragment of the chunking is attempted — a failed
fragment does not remove later fragments from the count); it returns 0
without throwing when every fragment fails; and the change notification to
the subscribers fires, in registration order, exactly when at least one
fragment was indexed. -/
theorem addDocument_partial_failure {L : Type} (embed : List Char → List ℚ)
    (idGen : Nat → List Char) (clock : Nat → Nat) (text source category : List Char)
    (st : VectorStoreState L) :
    (addDocument embed idGen clock text source category st).returned
        = ((chunkText text 500).filter (fun c => 0 < (embed c).length)).length ∧
    ((∀ c ∈ chunkText text 500, embed c = []) →
        (addDocument embed idGen clock text source category st).returned = 0) ∧
    (0 < (addDocument embed idGen clock text source category st).returned →
        (addDocument embed idGen clock text source category st).notified = st.listeners) ∧
    ((addDocument embed idGen clock text source category st).returned = 0 →
        (addDocument embed idGen clock text source category st).notified = []) := by
  obtain ⟨hcount, hlist⟩ :=
    addChunk_foldl_spec embed idGen clock source category (chunkText text 500) st 0
  have hret : (addDocument embed idGen clock text source category st).returned
      = ((chunkText text 500).filter (fun c => 0 < (embed c).length)).length := by
    simp only [addDocument]
    rw [hcount]
    omega
  refine ⟨hret, ?_, ?_, ?_⟩
  · intro hall
    rw [hret]
    have : (chunkText text 500).filter (fun c => 0 < (embed c).length) = [] := by
      apply List.filter_eq_nil_iff.mpr
      intro c hc
      simp [hall c hc]
    simp [this]
  · intro hpos
    simp only [addDocument, notify] at hpos ⊢
    rw [if_pos hpos, hlist]
  · intro hzero
    simp only [addDocument] at hzero ⊢
    rw [hzero]
    simp

/-- Claim C1 witness: a concrete two-fragment-capable text whose every
fragment fails to embed yields count 0 and no notification. -/
theorem addDocument_partial_failure_witness :
    (addDocument (fun _ => []) (fun _ => []) (fun _ => 0) (("hi").toList)
        (("s").toList) (("c").toList) (emptyStore Nat)).returned = 0 ∧
    (addDocument (fun _ => []) (fun _ => []) (fun _ => 0) (("hi").toList)
        (("s").toList) (("c").toList) (emptyStore Nat)).notified = [] := by
  obtain ⟨h1, h2, h3, h4⟩ :=
    addDocument_partial_failure (L := Nat) (fun _ => []) (fun _ => []) (fun _ => 0)
      (("hi").toList) (("s").toList) (("c").toList) (emptyStore Nat)
  have hz := h2 (by decide)
  exact ⟨hz, h4 hz⟩

/-- Claim C2: for every text and chunk size S greater than 0, the chunks
concatenate back to the text in order (so they are consecutive and
non-overlapping), every chunk has length at most S, every chunk except
possibly the last has length exactly S, the empty text yields no chunks, and
the result is a deterministic function of the input. -/
theorem chunkText_spec (text : List Char) (S : Nat) (hS : 0 < S) :
    (chunkText text S).flatten = text ∧
    (∀ c ∈ chunkText text S, c.length ≤ S) ∧
    (∀ c ∈ (chunkText text S).dropLast, c.length = S) ∧
    chunkText [] S = [] ∧
    (∀ t2 : List Char, t2 = text → chunkText t2 S = chunkText text S) := by
  refine ⟨chunkText_join text S hS, chunkText_length_le text S,
    chunkText_dropLast_length text S, chunkText_nil S, ?_⟩
  intro t2 h
  rw [h]

/-- Claim C2 witness: chunking a concrete 5-character text with S = 2. -/
theorem chunkText_spec_witness :
    (chunkText (("abcde").toList) 2).flatten = ("abcde").toList ∧
    (∀ c ∈ chunkText (("abcde").toList) 2, c.length ≤ 2) := by
  obtain ⟨h1, h2, h3, h4, h5⟩ := chunkText_spec (("abcde").toList) 2 (by decide)
  exact ⟨h1, h2⟩

/-- Claim C4: similaritySearch returns the empty sequence, and in particular
does not throw, when the query embedding fails (comes back empty) or when
the corpus is empty. -/
theorem similaritySearch_degenerate {L : Type} (embed : List Char → List ℚ)
    (q : List Char) (topK : Nat) (st : VectorStoreState L) :
    (embed q = [] → similaritySearch embed q topK st = []) ∧
    (st.documents = [] → similaritySearch embed q topK st = []) := by
  constructor
  · intro h
    simp [similaritySearch, h]
  · intro h
    by_cases hq : (embed q).length = 0
    · simp [similaritySearch, hq]
    · simp [similaritySearch, hq, scoredOf, h, sortByScoreDesc]

/-- Claim C4 witness: a failing query embedding on a non-empty corpus and a
successful embedding on an empty corpus both yield the empty result. -/
theorem similaritySearch_degenerate_witness :
    similaritySearch (fun _ => []) (("q").toList) 3
      { documents := [{ id := [], text := [], source := [], category := [],
                        embedding := [1], timestamp := 0 }],
        listeners := ([] : List Nat), rng := 1 } = [] ∧
    similaritySearch (fun _ => [(1 : ℚ)]) (("q").toList) 3 (emptyStore Nat) = [] := by
  constructor
  · exact (similaritySearch_degenerate (fun _ => []) (("q").toList) 3 _).1 rfl
  · exact (similaritySearch_degenerate (fun _ => [(1 : ℚ)]) (("q").toList) 3
      (emptyStore Nat)).2 rfl

/-- Claim C5 (code bug): with a zero-magnitude vector on either side the
source computes 0 / (sqrt 0 * sqrt m) = 0 / 0 = NaN (modelled none) as the
ranking score instead of the 0 the design requires, so NaN does propagate
into the ranked scores. -/
theorem cosineSimilarity_zero_magnitude_nan :
    cosineSimilarity [(0 : ℚ)] [(1 : ℚ)] = none ∧
    cosineSimilarity [(1 : ℚ)] [(0 : ℚ)] = none ∧
    cosineSimilarity [(0 : ℚ)] [(0 : ℚ)] = none := by
  norm_num [cosineSimilarity, dotPrefix, sumSq]

/-- Claim C10: the unsubscribe closure filters by function value, so it
removes every registration of that callback: after subscribing the same
callback twice, one call of the returned unsubscribe removes both (and any
older registration of the same value), and later notifications never invoke
that callback again. -/
theorem unsubscribe_removes_all {L : Type} [DecidableEq L] (listener : L)
    (st : VectorStoreState L) :
    (unsubscribe listener (subscribe listener (subscribe listener st))).listeners
        = st.listeners.filter (fun l => decide (l ≠ listener)) ∧
    (notify (unsubscribe listener (subscribe listener (subscribe listener st)))).count
        listener = 0 ∧
    (∀ st2 : VectorStoreState L, (notify (unsubscribe listener st2)).count listener = 0) := by
  have hfilter : ∀ st2 : VectorStoreState L,
      (unsubscribe listener st2).listeners = st2.listeners.filter
        (fun l => decide (l ≠ listener)) := fun _ => rfl
  have hcount : ∀ st2 : VectorStoreState L,
      (notify (unsubscribe listener st2)).count listener = 0 := by
    intro st2
    apply List.count_eq_zero.mpr
    intro hmem
    simp only [notify, unsubscribe, List.mem_filter] at hmem
    exact (of_decide_eq_true hmem.2) rfl
  refine ⟨?_, hcount _, hcount⟩
  rw [hfilter]
  simp only [subscribe, List.filter_append, List.append_assoc]
  simp

/-- Unfolding lemma: a successful attempt returns at once with no delay. -/
theorem withRetry_ok {α : Type} (attempts : Nat → Except JsError α) (i r d : Nat)
    (v : α) (ha : attempts i = Except.ok v) :
    withRetry attempts i r d = (Except.ok v, []) := by
  unfold withRetry
  rw [ha]

/-- Unfolding lemma: a non-transient error is re-raised at once. -/
theorem withRetry_raise {α : Type} (attempts : Nat → Except JsError α) (i r d : Nat)
    (e : JsError) (ha : attempts i = Except.error e) (hint : isInternalError e = false) :
    withRetry attempts i r d = (Except.error e, []) := by
  unfold withRetry
  rw [ha]
  simp [hint]

/-- Unfolding lemma: a transient error with no retry budget left is re-raised. -/
theorem withRetry_exhausted {α : Type} (attempts : Nat → Except JsError α) (i d : Nat)
    (e : JsError) (ha : attempts i = Except.error e) (hint : isInternalError e = true) :
    withRetry attempts i 0 d = (Except.error e, []) := by
  unfold withRetry
  rw [ha]
  simp [hint]

/-- Unfolding lemma for a positive retry budget and a transient error. -/
theorem withRetry_step {α : Type} (attempts : Nat → Except JsError α) (i r d : Nat)
    (e : JsError) (ha : attempts i = Except.error e) (hint : isInternalError e = true) :
    withRetry attempts i (r + 1) d
      = ((withRetry attempts (i + 1) r (d * 2)).1,
         d :: (withRetry attempts (i + 1) r (d * 2)).2) := by
  conv_lhs => rw [withRetry]
  rw [ha]
  simp [hint]

/-- The delays withRetry waits always follow the doubling schedule from the
initial delay: the waited list is a prefix of backoffDelays. -/
theorem withRetry_delays_schedule {α : Type} (attempts : Nat → Except JsError α) :
    ∀ (r : Nat) (d i : Nat),
      (withRetry attempts i r d).2
        = (backoffDelays d r).take (withRetry attempts i r d).2.length := by
  intro r
  induction r with
  | zero =>
      intro d i
      cases ha : attempts i with
      | ok v => rw [withRetry_ok attempts i 0 d v ha]; rfl
      | error e =>
          cases hint : isInternalError e with
          | true => rw [withRetry_exhausted attempts i d e ha hint]; rfl
          | false => rw [withRetry_raise attempts i 0 d e ha hint]; rfl
  | succ r ih =>
      intro d i
      cases ha : attempts i with
      | ok v => rw [withRetry_ok attempts i (r + 1) d v ha]; rfl
      | error e =>
          cases hint : isInternalError e with
          | true =>
              rw [withRetry_step attempts i r d e ha hint]
              simp only [backoffDelays, List.length_cons, List.take_succ_cons]
              rw [← ih (d * 2) (i + 1)]
          | false => rw [withRetry_raise attempts i (r + 1) d e ha hint]; rfl

/-- Claim C8 (amended): a call wrapped by withRetry with the default
configuration (3 retries, initial delay 1000 ms = 1 time unit) returns
immediately on success; retries only the errors the source classifies as
internal — status 500, code 500, or a message containing "Internal error",
not the whole 5xx class — up to 3 times, waiting 1000, 2000 and 4000 ms
(1 unit, doubling each attempt) before re-raising the last error; raises
every other error immediately with no retry; and in every case the waited
delays follow the doubling schedule. -/
theorem withRetry_policy {α : Type} (attempts : Nat → Except JsError α) :
    (∀ v : α, attempts 0 = Except.ok v → withRetry attempts 0 3 1000 = (Except.ok v, [])) ∧
    (∀ e : JsError, attempts 0 = Except.error e → isInternalError e = false →
        withRetry attempts 0 3 1000 = (Except.error e, [])) ∧
    (∀ es : Nat → JsError,
        (∀ i, i ≤ 3 → attempts i = Except.error (es i)) →
        (∀ i, i ≤ 3 → isInternalError (es i) = true) →
        withRetry attempts 0 3 1000 = (Except.error (es 3), [1000, 2000, 4000])) ∧
    (withRetry attempts 0 3 1000).2
      = (backoffDelays 1000 3).take (withRetry attempts 0 3 1000).2.length ∧
    backoffDelays 1000 3 = [1000, 2000, 4000] := by
  refine ⟨?_, ?_, ?_, withRetry_delays_schedule attempts 3 1000 0, rfl⟩
  · intro v h
    exact withRetry_ok attempts 0 3 1000 v h
  · intro e h hni
    exact withRetry_raise attempts 0 3 1000 e h hni
  · intro es hatt hint
    rw [withRetry_step attempts 0 2 1000 (es 0) (hatt 0 (by omega)) (hint 0 (by omega))]
    rw [withRetry_step attempts 1 1 2000 (es 1) (hatt 1 (by omega)) (hint 1 (by omega))]
    rw [withRetry_step attempts 2 0 4000 (es 2) (hatt 2 (by omega)) (hint 2 (by omega))]
    rw [withRetry_exhausted attempts 3 8000 (es 3) (hatt 3 (by omega)) (hint 3 (by omega))]

/-- Claim C8 witness: a backend that always fails with a 500-status error is
retried three times with delays 1000, 2000, 4000 and the error re-raised. -/
theorem withRetry_policy_witness :
    withRetry (fun _ => (Except.error { status := some 500, code := none, message := [] } :
        Except JsError Nat)) 0 3 1000
      = (Except.error { status := some 500, code := none, message := [] },
         [1000, 2000, 4000]) := by
  have h500 : isInternalError { status := some 500, code := none, message := [] } = true := by
    decide
  have h := (withRetry_policy (fun _ =>
      (Except.error { status := some 500, code := none, message := [] } :
        Except JsError Nat))).2.2.1
  exact h (fun _ => { status := some 500, code := none, message := [] })
    (fun i _ => rfl) (fun i _ => h500)

/-- Claim C8 counterexample: a 503 server error — transient and 5xx-class,
so retried according to the claim as stated — is not retried by the source:
the internal-error check accepts only status 500, code 500 or an
"Internal error" message, so the 503 is re-raised at once with no delay. -/
theorem withRetry_503_not_retried_cex :
    withRetry (fun _ =>
        (Except.error { status := some 503, code := none, message := [] } :
          Except JsError Nat)) 0 3 1000
      = (Except.error { status := some 503, code := none, message := [] }, []) ∧
    isInternalError { status := some 503, code := none, message := [] } = false := by
  constructor
  · exact withRetry_raise _ 0 3 1000 _ rfl (by decide)
  · decide

/-- Claim C7 (amended): with the source's catch block, a permission error on
a call with tools enabled is retried exactly once with the same request and
tools removed; a successful retry yields a normal result with no trace of
the earlier failure; when tools were never enabled the caller gets the
distinct PAYMENT_REQUIRED condition; but when the tools-disabled retry
itself fails, its raw error propagates to the caller unchanged, not the
distinct elevated-access condition the claim states. -/
theorem chatHybridOutcome_policy (tools : List ToolChoice)
    (first retry : Except JsError (List Char)) :
    (∀ t, first = Except.ok t → chatHybridOutcome tools first retry = Except.ok t) ∧
    (∀ e t, first = Except.error e → isPermissionError e = true → tools ≠ [] →
        retry = Except.ok t → chatHybridOutcome tools first retry = Except.ok t) ∧
    (∀ e e2, first = Except.error e → isPermissionError e = true → tools ≠ [] →
        retry = Except.error e2 → chatHybridOutcome tools first retry = Except.error e2) ∧
    (∀ e, first = Except.error e → isPermissionError e = true → tools = [] →
        chatHybridOutcome tools first retry = Except.error paymentRequired) := by
  refine ⟨?_, ?_, ?_, ?_⟩
  · intro t h
    simp [chatHybridOutcome, h]
  · intro e t h hperm htools hr
    simp [chatHybridOutcome, h, hperm, htools, hr]
  · intro e e2 h hperm htools hr
    simp [chatHybridOutcome, h, hperm, htools, hr]
  · intro e h hperm htools
    simp [chatHybridOutcome, h, hperm, htools]

/-- Claim C7 counterexample: a 403 error on the primary call with the search
tool enabled, followed by a 403 on the tools-disabled retry, reaches the
caller as the raw 403 error and not as the distinct PAYMENT_REQUIRED
condition (different status and message). -/
theorem chatHybridOutcome_retry_failure_cex :
    chatHybridOutcome [ToolChoice.googleSearchTool]
        (Except.error { status := some 403, code := none, message := [] })
        (Except.error { status := some 403, code := none, message := [] })
      = Except.error { status := some 403, code := none, message := [] } ∧
    ({ status := some 403, code := none, message := [] } : JsError).status = some 403 ∧
    paymentRequired.status = none ∧
    ({ status := some 403, code := none, message := [] } : JsError) ≠ paymentRequired := by
  refine ⟨rfl, rfl, rfl, by decide⟩

/-- Claim C7 witness: a permission failure with tools enabled whose
tools-disabled retry succeeds yields the retry's text as a normal result,
and the same failure with no tools enabled yields PAYMENT_REQUIRED. -/
theorem chatHybridOutcome_policy_witness :
    chatHybridOutcome [ToolChoice.googleSearchTool]
        (Except.error { status := some 403, code := none, message := [] })
        (Except.ok (("ok").toList))
      = Except.ok (("ok").toList) ∧
    chatHybridOutcome []
        (Except.error { status := some 403, code := none, message := [] })
        (Except.ok (("ok").toList))
      = Except.error paymentRequired := by
  constructor
  · exact (chatHybridOutcome_policy [ToolChoice.googleSearchTool]
      (Except.error { status := some 403, code := none, message := [] })
      (Except.ok (("ok").toList))).2.1 _ _ rfl (by decide) (by decide) rfl
  · exact (chatHybridOutcome_policy []
      (Except.error { status := some 403, code := none, message := [] })
      (Except.ok (("ok").toList))).2.2.2 _ rfl (by decide) rfl

/-- Claim C6 (amended): the routing precedence of the source is: (1) the
visual-creation persona with a video-like query and no attached document
enters the visual pipeline; (2) otherwise a location keyword selects the
geo-grounded model with the mapping tool — overriding the visual persona,
because the map check is a separate if statement after the visual branch;
(3) otherwise with no document and a non-visual persona the image-generation
tool is selected exactly when the query matches a creation verb followed by
a media noun, and the web-search grounding tool exactly otherwise — the
selected tool list is a singleton, so the two are never enabled together;
(4) otherwise the visual persona — whether or not the query is video-like,
so in particular for a video-like query with a document attached — keeps the
image model with the image tool, and any remaining case gets the default
model with no tools. -/
theorem routeConfig_policy (p : ChatPersona) (q : List Char) (d : Bool) :
    (p = ChatPersona.VISUAL_CREATOR → isVideoRequest q = true → d = false →
        routeConfig p q d = Route.videoPipeline) ∧
    (¬(p = ChatPersona.VISUAL_CREATOR ∧ isVideoRequest q = true ∧ d = false) →
        isMapIntent q = true →
        routeConfig p q d = Route.call GenModel.mapsModel [ToolChoice.googleMapsTool]) ∧
    (isMapIntent q = false → d = false → p ≠ ChatPersona.VISUAL_CREATOR →
        routeConfig p q d = Route.call GenModel.flashModel
          [if isImageRequest q then ToolChoice.imageGenTool else ToolChoice.googleSearchTool]) ∧
    (¬(isVideoRequest q = true ∧ d = false) → isMapIntent q = false →
        p = ChatPersona.VISUAL_CREATOR →
        routeConfig p q d = Route.call GenModel.imageModel [ToolChoice.imageGenTool]) ∧
    (isMapIntent q = false → d = true → p ≠ ChatPersona.VISUAL_CREATOR →
        routeConfig p q d = Route.call GenModel.flashModel []) := by
  refine ⟨?_, ?_, ?_, ?_, ?_⟩
  · intro hp hv hd
    simp [routeConfig, hp, hv, hd]
  · intro hno hm
    rw [routeConfig, if_neg hno, if_pos hm]
  · intro hm hd hp
    have hno : ¬(p = ChatPersona.VISUAL_CREATOR ∧ isVideoRequest q = true ∧ d = false) := by
      intro hc
      exact hp hc.1
    rw [routeConfig, if_neg hno, if_neg (by simp [hm]), if_pos ⟨hd, hp⟩]
    by_cases hi : isImageRequest q = true
    · simp [hi]
    · simp only [Bool.not_eq_true] at hi
      simp [hi]
  · intro hnvd hm hp
    have hno : ¬(p = ChatPersona.VISUAL_CREATOR ∧ isVideoRequest q = true ∧ d = false) := by
      intro hc
      exact hnvd ⟨hc.2.1, hc.2.2⟩
    rw [routeConfig, if_neg hno, if_neg (by simp [hm]),
      if_neg (by simp [hp]), if_pos hp]
  · intro hm hd hp
    have hno : ¬(p = ChatPersona.VISUAL_CREATOR ∧ isVideoRequest q = true ∧ d = false) := by
      intro hc
      exact absurd (hd ▸ hc.2.2) (by decide)
    rw [routeConfig, if_neg hno, if_neg (by simp [hm]),
      if_neg (by simp [hd]), if_neg hp]

/-- Claim C6 counterexample: with the visual-creation persona and the
non-video query "show me a map" (no document), the source selects the
geo-grounded model and mapping tool — the location keyword overrides the
visual persona, contradicting the claimed precedence. -/
theorem routeConfig_visual_map_cex :
    routeConfig ChatPersona.VISUAL_CREATOR (("show me a map").toList) false
      = Route.call GenModel.mapsModel [ToolChoice.googleMapsTool] ∧
    Route.call GenModel.mapsModel [ToolChoice.googleMapsTool]
      ≠ Route.call GenModel.imageModel [ToolChoice.imageGenTool] := by
  constructor
  · decide
  · decide

/-- Claim C6 witness: the general persona with query "generate an image of a
cat" and no document gets the image tool (not search); with query "hello"
it gets the search tool; "Where is the Eiffel Tower?" selects the mapping
configuration; and the visual persona with the video-like query "animate my
photo" but a document attached keeps the image model and image tool. -/
theorem routeConfig_policy_witness :
    routeConfig ChatPersona.GENERAL (("generate an image of a cat").toList) false
      = Route.call GenModel.flashModel [ToolChoice.imageGenTool] ∧
    routeConfig ChatPersona.GENERAL (("hello").toList) false
      = Route.call GenModel.flashModel [ToolChoice.googleSearchTool] ∧
    routeConfig ChatPersona.GENERAL (("Where is the Eiffel Tower?").toList) false
      = Route.call GenModel.mapsModel [ToolChoice.googleMapsTool] ∧
    routeConfig ChatPersona.VISUAL_CREATOR (("animate my photo").toList) true
      = Route.call GenModel.imageModel [ToolChoice.imageGenTool] := by
  refine ⟨?_, ?_, ?_, ?_⟩
  · have h := (routeConfig_policy ChatPersona.GENERAL
        (("generate an image of a cat").toList) false).2.2.1
        (by decide) rfl (by decide)
    rw [h]
    decide
  · have h := (routeConfig_policy ChatPersona.GENERAL (("hello").toList) false).2.2.1
        (by decide) rfl (by decide)
    rw [h]
    decide
  · exact (routeConfig_policy ChatPersona.GENERAL
        (("Where is the Eiffel Tower?").toList) false).2.1 (by decide) (by decide)
  · exact (routeConfig_policy ChatPersona.VISUAL_CREATOR
        (("animate my photo").toList) true).2.2.2.1 (by decide) (by decide) rfl

/-- Invariant of the store under the chunk loop: the rng cursor equals the
number of stored entries and the stored ids are, in order, the oracle values
at 0, 1, 2, ... (each successful chunk draws the next id). -/
theorem addChunk_foldl_tracked {L : Type} (embed : List Char → List ℚ)
    (idGen : Nat → List Char) (clock : Nat → Nat) (source category : List Char)
    (chunks : List (List Char)) :
    ∀ (st : VectorStoreState L) (cnt : Nat),
      st.rng = st.documents.length →
      st.documents.map VectorDocument.id = (List.range st.documents.length).map idGen →
      (chunks.foldl (addChunk embed idGen clock source category) (st, cnt)).1.rng
        = (chunks.foldl (addChunk embed idGen clock source category)
            (st, cnt)).1.documents.length ∧
      (chunks.foldl (addChunk embed idGen clock source category)
          (st, cnt)).1.documents.map VectorDocument.id
        = (List.range (chunks.foldl (addChunk embed idGen clock source category)
            (st, cnt)).1.documents.length).map idGen := by
  induction chunks with
  | nil =>
      intro st cnt h1 h2
      exact ⟨h1, h2⟩
  | cons c rest ih =>
      intro st cnt h1 h2
      simp only [List.foldl_cons]
      by_cases hc : 0 < (embed c).length
      · have step : addChunk embed idGen clock source category (st, cnt) c
            = ({ st with
                  documents := st.documents ++
                    [{ id := idGen st.rng, text := c, source := source,
                       category := category, embedding := embed c,
                       timestamp := clock st.rng }],
                  rng := st.rng + 1 }, cnt + 1) := by
          simp [addChunk, hc]
        rw [step]
        refine ih _ (cnt + 1) ?_ ?_
        · simp [h1]
        · simp only [List.map_append, List.length_append, List.map_cons, List.map_nil,
            List.length_cons, List.length_nil]
          rw [h2, h1]
          rw [List.range_succ]
          simp
      · have step : addChunk embed idGen clock source category (st, cnt) c = (st, cnt) := by
          simp [addChunk, hc]
        rw [step]
        exact ih st cnt h1 h2

/-- The tracking invariant holds after any session started from the empty
store: addDocument preserves it call by call. -/
theorem runSession_tracked {L : Type} (embed : List Char → List ℚ)
    (idGen : Nat → List Char) (clock : Nat → Nat)
    (reqs : List (List Char × List Char × List Char)) :
    ∀ st : VectorStoreState L,
      st.rng = st.documents.length →
      st.documents.map VectorDocument.id = (List.range st.documents.length).map idGen →
      (runSession embed idGen clock reqs st).rng
        = (runSession embed idGen clock reqs st).documents.length ∧
      (runSession embed idGen clock reqs st).documents.map VectorDocument.id
        = (List.range (runSession embed idGen clock reqs st).documents.length).map idGen := by
  induction reqs with
  | nil =>
      intro st h1 h2
      exact ⟨h1, h2⟩
  | cons r rest ih =>
      intro st h1 h2
      simp only [runSession, List.foldl_cons]
      obtain ⟨g1, g2⟩ := addChunk_foldl_tracked embed idGen clock r.2.1 r.2.2
        (chunkText r.1 500) st 0 h1 h2
      exact ih _ g1 g2

/-- Claim C9 (amended): entry ids are drawn from the random-id stream, one
per successful chunk; whenever the stream never repeats a value inside the
session (idGen injective over the draw indices), the ids of all entries
stored by any sequence of addDocument calls on a fresh store are pairwise
distinct.  (The code itself cannot rule out a repeated Math.random draw,
hence the injectivity hypothesis; the counterexample shows a repeating
stream producing duplicate ids.) -/
theorem session_ids_distinct {L : Type} (embed : List Char → List ℚ)
    (idGen : Nat → List Char) (clock : Nat → Nat)
    (reqs : List (List Char × List Char × List Char))
    (hinj : Function.Injective idGen) :
    ((runSession embed idGen clock reqs (emptyStore L)).documents.map
        VectorDocument.id).Pairwise (fun a b => a ≠ b) := by
  obtain ⟨-, h2⟩ := runSession_tracked embed idGen clock reqs (emptyStore L) rfl rfl
  rw [h2]
  have : ((List.range (runSession embed idGen clock reqs
      (emptyStore L)).documents.length).map idGen).Nodup :=
    (List.nodup_range _).map hinj
  simpa [List.Nodup] using this

/-- Claim C9 witness: with an injective id stream, a concrete two-call
session stores entries with pairwise distinct ids. -/
theorem session_ids_distinct_witness :
    ((runSession (fun _ => [(1 : ℚ)]) (fun n => List.replicate n (Char.ofNat 97))
        (fun _ => 0)
        [([Char.ofNat 120], [], []), ([Char.ofNat 121], [], [])]
        (emptyStore Nat)).documents.map VectorDocument.id).Pairwise
      (fun a b => a ≠ b) := by
  refine session_ids_distinct (fun _ => [(1 : ℚ)])
    (fun n => List.replicate n (Char.ofNat 97)) (fun _ => 0)
    [([Char.ofNat 120], [], []), ([Char.ofNat 121], [], [])] ?_
  intro a b h
  have := congrArg List.length h
  simpa using this

/-- Claim C9 counterexample: Math.random can repeat a value; with a constant
id stream, two addDocument calls (one tiny document each, both embedding
successfully) store two entries with the same id, so the ids are not
pairwise distinct. -/
theorem session_random_id_collision_cex :
    (runSession (fun _ => [(1 : ℚ)]) (fun _ => [Char.ofNat 97]) (fun _ => 0)
        [([Char.ofNat 120], [], []), ([Char.ofNat 121], [], [])]
        (emptyStore Nat)).documents.map VectorDocument.id
      = [[Char.ofNat 97], [Char.ofNat 97]] ∧
    (((runSession (fun _ => [(1 : ℚ)]) (fun _ => [Char.ofNat 97]) (fun _ => 0)
        [([Char.ofNat 120], [], []), ([Char.ofNat 121], [], [])]
        (emptyStore Nat)).documents.map VectorDocument.id).Pairwise
      (fun a b => a ≠ b)) = False := by
  constructor
  · decide
  · apply eq_false
    intro hp
    have hids : (runSession (fun _ => [(1 : ℚ)]) (fun _ => [Char.ofNat 97]) (fun _ => 0)
        [([Char.ofNat 120], [], []), ([Char.ofNat 121], [], [])]
        (emptyStore Nat)).documents.map VectorDocument.id
        = [[Char.ofNat 97], [Char.ofNat 97]] := by decide
    rw [hids] at hp
    exact (List.pairwise_cons.mp hp).1 [Char.ofNat 97] (by simp) rfl

/-- specLt is asymmetric. -/
theorem specLt_asymm (a b : Nat × VectorDocument × Option ℚ) (h : specLt a b) :
    ¬ specLt b a := by
  unfold specLt at h ⊢
  push_neg
  rcases h with h | ⟨he, hi⟩
  · exact ⟨le_of_lt h, fun hk => absurd (hk ▸ h) (lt_irrefl _)⟩
  · exact ⟨le_of_eq he.symm, fun _ => le_of_lt hi⟩

/-- The negation of specLt is transitive. -/
theorem specGe_trans (a b c : Nat × VectorDocument × Option ℚ)
    (h1 : ¬ specLt b a) (h2 : ¬ specLt c b) : ¬ specLt c a := by
  unfold specLt at h1 h2 ⊢
  push_neg at h1 h2 ⊢
  obtain ⟨h1k, h1i⟩ := h1
  obtain ⟨h2k, h2i⟩ := h2
  refine ⟨le_trans h2k h1k, fun hk => ?_⟩
  have hab2 : keyOf a.2.2 ≤ keyOf b.2.2 := hk ▸ h2k
  have hba : keyOf b.2.2 = keyOf a.2.2 := le_antisymm h1k hab2
  have hcb : keyOf c.2.2 = keyOf b.2.2 := hk.trans hba.symm
  exact le_trans (h1i hba) (h2i hcb)

/-- With distinct indices, failing specLt one way forces it the other way. -/
theorem specLt_of_not_of_ne (a b : Nat × VectorDocument × Option ℚ)
    (hne : a.1 ≠ b.1) (h : ¬ specLt b a) : specLt a b := by
  unfold specLt at h ⊢
  push_neg at h
  obtain ⟨hk, hi⟩ := h
  rcases lt_or_eq_of_le hk with hlt | heq
  · exact Or.inl hlt
  · refine Or.inr ⟨heq.symm, ?_⟩
    have := hi heq
    omega

theorem specInsert_perm (z : Nat × VectorDocument × Option ℚ)
    (dl : List (Nat × VectorDocument × Option ℚ)) :
    (specInsert z dl).Perm (z :: dl) := by
  induction dl with
  | nil => exact List.Perm.refl _
  | cons y ys ih =>
      by_cases h : specLt y z
      · rw [specInsert, if_pos h]
        exact (ih.cons y).trans (List.Perm.swap z y ys)
      · rw [specInsert, if_neg h]

theorem specSort_perm (dl : List (Nat × VectorDocument × Option ℚ)) :
    (specSort dl).Perm dl := by
  induction dl with
  | nil => exact List.Perm.refl _
  | cons x xs ih =>
      rw [specSort]
      exact (specInsert_perm x (specSort xs)).trans (ih.cons x)

theorem specInsert_pairwise (z : Nat × VectorDocument × Option ℚ)
    (dl : List (Nat × VectorDocument × Option ℚ))
    (h : dl.Pairwise (fun a b => ¬ specLt b a)) :
    (specInsert z dl).Pairwise (fun a b => ¬ specLt b a) := by
  induction dl with
  | nil => simp [specInsert]
  | cons y ys ih =>
      obtain ⟨hy, hys⟩ := List.pairwise_cons.mp h
      by_cases hcase : specLt y z
      · rw [specInsert, if_pos hcase]
        refine List.pairwise_cons.mpr ⟨?_, ih hys⟩
        intro w hw
        rcases List.mem_cons.mp ((specInsert_perm z ys).mem_iff.mp hw) with hw | hw
        · rw [hw]
          exact specLt_asymm y z hcase
        · exact hy w hw
      · rw [specInsert, if_neg hcase]
        refine List.pairwise_cons.mpr ⟨?_, h⟩
        intro w hw
        rcases List.mem_cons.mp hw with hw | hw
        · rw [hw]
          exact hcase
        · exact specGe_trans z y w hcase (hy w hw)

theorem specSort_pairwise (dl : List (Nat × VectorDocument × Option ℚ)) :
    (specSort dl).Pairwise (fun a b => ¬ specLt b a) := by
  induction dl with
  | nil => simp [specSort]
  | cons x xs ih => exact specInsert_pairwise x (specSort xs) ih

/-- Inserting a decorated entry whose index is below every index of the
sorted list does exactly what the comparator-based insertion of the source
does on the undecorated entries: on distinct indices with defined scores,
the spec order agrees with a strict score comparison, and ties fall back to
the original order automatically. -/
theorem specInsert_map (z : Nat × VectorDocument × Option ℚ)
    (dl : List (Nat × VectorDocument × Option ℚ))
    (hidx : ∀ p ∈ dl, z.1 < p.1) (hz : z.2.2.isSome)
    (hdl : ∀ p ∈ dl, p.2.2.isSome) :
    (specInsert z dl).map Prod.snd = insertByScore z.2 (dl.map Prod.snd) := by
  induction dl with
  | nil => rfl
  | cons y ys ih =>
      obtain ⟨a, ha⟩ := Option.isSome_iff_exists.mp hz
      obtain ⟨b, hb⟩ := Option.isSome_iff_exists.mp (hdl y (List.mem_cons_self y ys))
      have hzy : z.1 < y.1 := hidx y (List.mem_cons_self y ys)
      have hkz : keyOf z.2.2 = a := by simp [keyOf, ha]
      have hky : keyOf y.2.2 = b := by simp [keyOf, hb]
      have hscore : scoreGT y.2.2 z.2.2 = decide (a < b) := by
        rw [ha, hb]
        rfl
      by_cases hab : a < b
      · have hyz : specLt y z := Or.inl (by rw [hkz, hky]; exact hab)
        rw [specInsert, if_pos hyz, List.map_cons, List.map_cons, insertByScore,
          hscore, if_pos (by simpa using hab)]
        rw [ih (fun p hp => hidx p (List.mem_cons_of_mem y hp))
          (fun p hp => hdl p (List.mem_cons_of_mem y hp))]
      · have hyz : ¬ specLt y z := by
          unfold specLt
          push_neg
          rw [hkz, hky]
          exact ⟨le_of_not_lt hab, fun _ => by omega⟩
        rw [specInsert, if_neg hyz]
        simp only [List.map_cons]
        rw [insertByScore, hscore, if_neg (by simpa using hab)]

/-- The spec-side sort of the index-decorated list projects to the stable
comparator sort of the source, provided every score is defined. -/
theorem specSort_enumFrom_map (l : List (VectorDocument × Option ℚ)) :
    ∀ k : Nat, (∀ p ∈ l, p.2.isSome) →
      (specSort (List.enumFrom k l)).map Prod.snd = sortByScoreDesc l := by
  induction l with
  | nil => intro k _; rfl
  | cons x xs ih =>
      intro k h
      rw [List.enumFrom_cons, specSort]
      have hsub : ∀ p ∈ xs, p.2.isSome := fun p hp => h p (List.mem_cons_of_mem x hp)
      have hmem : ∀ p ∈ specSort (List.enumFrom (k + 1) xs),
          p ∈ List.enumFrom (k + 1) xs :=
        fun p hp => (specSort_perm _).mem_iff.mp hp
      have hidx : ∀ p ∈ specSort (List.enumFrom (k + 1) xs), (k, x).1 < p.1 := by
        intro p hp
        obtain ⟨i, v⟩ := p
        have hm := List.mem_enumFrom (hmem _ hp)
        simp only
        omega
      have hsome : ∀ p ∈ specSort (List.enumFrom (k + 1) xs), p.2.2.isSome := by
        intro p hp
        obtain ⟨i, v⟩ := p
        have hm := List.mem_enumFrom (hmem _ hp)
        obtain ⟨h1, h2, h3⟩ := hm
        have hv : v ∈ xs := by
          rw [h3]
          exact List.getElem_mem _
        exact hsub v hv
      rw [specInsert_map (k, x) _ hidx (h x (List.mem_cons_self x xs)) hsome]
      rw [ih (k + 1) hsub]
      rfl

theorem insertByScore_length (x : VectorDocument × Option ℚ)
    (l : List (VectorDocument × Option ℚ)) :
    (insertByScore x l).length = l.length + 1 := by
  induction l with
  | nil => rfl
  | cons y ys ih =>
      rw [insertByScore]
      by_cases h : scoreGT y.2 x.2
      · simp [h, ih]
      · simp [h]

theorem sortByScoreDesc_length (l : List (VectorDocument × Option ℚ)) :
    (sortByScoreDesc l).length = l.length := by
  induction l with
  | nil => rfl
  | cons x xs ih =>
      rw [sortByScoreDesc, insertByScore_length, ih, List.length_cons]

/-- Claim C3: on a corpus where every entry's cosine score against the
(successfully embedded) query is defined, similaritySearch equals the
specification ranking: decorate the scored entries with their insertion
index, sort by the strict linear order "higher score first, ties by lower
insertion index" (the stable descending sort), and return the first topK
documents.  The ranking is strictly sorted in that order (descending score,
ties broken by insertion order), considers every stored entry exactly once,
returns min topK n entries, and is a deterministic pure function of the
corpus and query. -/
theorem similaritySearch_ranking {L : Type} (embed : List Char → List ℚ)
    (q : List Char) (topK : Nat) (st : VectorStoreState L)
    (hq : embed q ≠ [])
    (hs : ∀ p ∈ scoredOf embed q st, p.2.isSome) :
    similaritySearch embed q topK st
        = ((specRank (scoredOf embed q st)).take topK).map (fun p => p.2.1) ∧
    (specRank (scoredOf embed q st)).Pairwise specLt ∧
    ((specRank (scoredOf embed q st)).map Prod.fst).Perm
        (List.range st.documents.length) ∧
    (similaritySearch embed q topK st).length = min topK st.documents.length ∧
    similaritySearch embed q topK st = similaritySearch embed q topK st := by
  have hq0 : ¬((embed q).length = 0) := by
    intro h
    exact hq (List.length_eq_zero.mp h)
  have henum : (scoredOf embed q st).enum = List.enumFrom 0 (scoredOf embed q st) := rfl
  have hmain : (specRank (scoredOf embed q st)).map Prod.snd
      = sortByScoreDesc (scoredOf embed q st) := by
    rw [specRank, henum]
    exact specSort_enumFrom_map (scoredOf embed q st) 0 hs
  have hlenscored : (scoredOf embed q st).length = st.documents.length := by
    simp [scoredOf]
  have hperm : ((specRank (scoredOf embed q st)).map Prod.fst).Perm
      (List.range st.documents.length) := by
    have h1 : (specRank (scoredOf embed q st)).Perm (scoredOf embed q st).enum :=
      specSort_perm _
    have h2 := h1.map Prod.fst
    rw [List.enum_map_fst, hlenscored] at h2
    exact h2
  have hsearch : similaritySearch embed q topK st
      = ((sortByScoreDesc (scoredOf embed q st)).take topK).map Prod.fst := by
    simp [similaritySearch, hq0]
  refine ⟨?_, ?_, hperm, ?_, rfl⟩
  · rw [hsearch, ← hmain, ← List.map_take, List.map_map]
    rfl
  · have hpw : (specRank (scoredOf embed q st)).Pairwise (fun a b => ¬ specLt b a) :=
      specSort_pairwise _
    have hnodup : ((specRank (scoredOf embed q st)).map Prod.fst).Nodup :=
      hperm.nodup_iff.mpr (List.nodup_range _)
    have hne : (specRank (scoredOf embed q st)).Pairwise (fun a b => a.1 ≠ b.1) :=
      List.pairwise_map.mp hnodup
    exact (hpw.and hne).imp (fun h => specLt_of_not_of_ne _ _ h.2 h.1)
  · rw [hsearch]
    simp [List.length_take, sortByScoreDesc_length, hlenscored]

/-- Claim C3 witness: a two-entry corpus whose entries both score 1 against
the query (a tie) is returned whole, in insertion order, with length
min 3 2 = 2. -/
theorem similaritySearch_ranking_witness :
    similaritySearch (fun _ => [(1 : ℚ)]) [Char.ofNat 113] 3
        { documents :=
            [{ id := [Char.ofNat 97], text := [], source := [], category := [],
               embedding := [(1 : ℚ)], timestamp := 0 },
             { id := [Char.ofNat 98], text := [], source := [], category := [],
               embedding := [(2 : ℚ)], timestamp := 1 }],
          listeners := ([] : List Nat), rng := 2 }
      = [{ id := [Char.ofNat 97], text := [], source := [], category := [],
           embedding := [(1 : ℚ)], timestamp := 0 },
         { id := [Char.ofNat 98], text := [], source := [], category := [],
           embedding := [(2 : ℚ)], timestamp := 1 }] ∧
    (similaritySearch (fun _ => [(1 : ℚ)]) [Char.ofNat 113] 3
        { documents :=
            [{ id := [Char.ofNat 97], text := [], source := [], category := [],
               embedding := [(1 : ℚ)], timestamp := 0 },
             { id := [Char.ofNat 98], text := [], source := [], category := [],
               embedding := [(2 : ℚ)], timestamp := 1 }],
          listeners := ([] : List Nat), rng := 2 }).length = min 3 2 ∧
    similaritySearch (fun _ => [(1 : ℚ)]) [Char.ofNat 113] 3
        { documents :=
            [{ id := [Char.ofNat 97], text := [], source := [], category := [],
               embedding := [(1 : ℚ)], timestamp := 0 },
             { id := [Char.ofNat 98], text := [], source := [], category := [],
               embedding := [(2 : ℚ)], timestamp := 1 }],
          listeners := ([] : List Nat), rng := 2 }
      = similaritySearch (fun _ => [(1 : ℚ)]) [Char.ofNat 113] 3
        { documents :=
            [{ id := [Char.ofNat 97], text := [], source := [], category := [],
               embedding := [(1 : ℚ)], timestamp := 0 },
             { id := [Char.ofNat 98], text := [], source := [], category := [],
               embedding := [(2 : ℚ)], timestamp := 1 }],
          listeners := ([] : List Nat), rng := 2 } := by
  have hA : cosineSimilarity [(1 : ℚ)] [(1 : ℚ)] = some 1 := by
    norm_num [cosineSimilarity, dotPrefix, sumSq, ratAbs]
  have hB : cosineSimilarity [(1 : ℚ)] [(2 : ℚ)] = some 1 := by
    norm_num [cosineSimilarity, dotPrefix, sumSq, ratAbs]
  have h := similaritySearch_ranking (L := Nat) (fun _ => [(1 : ℚ)]) [Char.ofNat 113] 3
    { documents :=
        [{ id := [Char.ofNat 97], text := [], source := [], category := [],
           embedding := [(1 : ℚ)], timestamp := 0 },
         { id := [Char.ofNat 98], text := [], source := [], category := [],
           embedding := [(2 : ℚ)], timestamp := 1 }],
      listeners := ([] : List Nat), rng := 2 }
    (by intro hcontra; cases hcontra)
    (by
      intro p hp
      simp only [scoredOf, List.map_cons, List.map_nil, hA, hB] at hp
      rcases List.mem_cons.mp hp with hp | hp
      · rw [hp]
        rfl
      · rcases List.mem_cons.mp hp with hp | hp
        · rw [hp]
          rfl
        · exact absurd hp (List.not_mem_nil p))
  have hres : similaritySearch (fun _ => [(1 : ℚ)]) [Char.ofNat 113] 3
      { documents :=
          [{ id := [Char.ofNat 97], text := [], source := [], category := [],
             embedding := [(1 : ℚ)], timestamp := 0 },
           { id := [Char.ofNat 98], text := [], source := [], category := [],
             embedding := [(2 : ℚ)], timestamp := 1 }],
        listeners := ([] : List Nat), rng := 2 }
      = [{ id := [Char.ofNat 97], text := [], source := [], category := [],
           embedding := [(1 : ℚ)], timestamp := 0 },
         { id := [Char.ofNat 98], text := [], source := [], category := [],
           embedding := [(2 : ℚ)], timestamp := 1 }] := by
    simp [similaritySearch, scoredOf, hA, hB, sortByScoreDesc, insertByScore, scoreGT]
  exact ⟨hres, h.2.2.2.1, h.2.2.2.2⟩

end InferMate
